import Mathlib

/-!
Verification development for `src/auth.js` (CryptoEx client-side auth +
referral store).

Modelling conventions (shallow embedding):

* JavaScript strings are modelled as `JStr := List Char` (sequences of
  UTF-16 code units; for characters in the Basic Multilingual Plane a code
  unit is exactly one `Char`).  String truthiness (`if (s)`) is `s ≠ []`;
  `===` on strings is structural equality.
* `localStorage` is modelled by the `Store` structure, with one field per
  persisted table key (`cryptoex_users_v1`, `cryptoex_session_v1`, ...).
  Keys whose raw value can be absent and are only ever read through
  `getItem(k) || ""` (session, incoming ref) are modelled as `JStr` with
  `[]` standing for "absent or empty" — the code cannot distinguish the
  two.  JSON objects used as dictionaries (profiles, ref log) are modelled
  as association lists with JS-object update semantics (`objGet`/`objSet`).
* Ambient browser state (`crypto.subtle`, `Date.now()`, `location`,
  `URLSearchParams`, `Math.random`) is an explicit environment `Env`;
  `Math.random()*32 |> floor` becomes a stream `rand : Nat → Fin 32`
  consumed through the counter carried by `World`.
* The `async`/`await` in the source has exactly one suspension point
  (`sha256Hex`); resolved execution is therefore a pure function.
* Raw-storage JSON parsing (`safeJsonParse`, claim about malformed data) is
  modelled separately at the string level with an executable JSON parser
  (`jsonParse`) that follows the ECMAScript `JSON.parse` grammar.
-/

namespace CryptoEx

/-- JavaScript string: a list of UTF-16 code units, one `Char` per unit. -/
abbrev JStr := List Char

/-- Character class `\s` of JavaScript regular expressions and the set
trimmed by `String.prototype.trim`: ASCII whitespace, NBSP, the Unicode
space separators, line/paragraph separators and the BOM. -/
def jsIsWhitespace (c : Char) : Bool :=
  let n := c.toNat
  n == 9 || n == 10 || n == 11 || n == 12 || n == 13 || n == 32 ||
  n == 0xa0 || n == 0x1680 || (0x2000 ≤ n && n ≤ 0x200a) ||
  n == 0x2028 || n == 0x2029 || n == 0x202f || n == 0x205f ||
  n == 0x3000 || n == 0xfeff

/-- Model of `String.prototype.trim`: drop leading and trailing
whitespace. -/
def jsTrim (s : JStr) : JStr :=
  ((s.dropWhile jsIsWhitespace).reverse.dropWhile jsIsWhitespace).reverse

/-- Lower-casing of one UTF-16 code unit as done by
`String.prototype.toLowerCase` on the ASCII range (`A`-`Z` ↦ `a`-`z`).
All characters appearing in the verified properties are ASCII; the full
Unicode case mapping is out of scope of this model. -/
def lowerChar (c : Char) : Char :=
  if 65 ≤ c.toNat ∧ c.toNat ≤ 90 then Char.ofNat (c.toNat + 32) else c

/-- Model of `String.prototype.toLowerCase` (see `lowerChar`). -/
def jsToLower (s : JStr) : JStr := s.map lowerChar

/-- Character class `[^\s@]` used by the e-mail regular expression. -/
def okCh (c : Char) : Bool := !(jsIsWhitespace c) && !(c == '@')

/-- Matching of the regular expression `^[^\s@]+@[^\s@]+\.[^\s@]{2,}$`
(from `isValidEmail`, src/auth.js line 23) against a whole string.
Because `[^\s@]` excludes `@`, any match must split the string at its
first `@`; the part `a` before it is `[^\s@]+`, and the remainder `rest`
must be `B.C` with `B` nonempty, `C` of length at least 2 and every
character of `rest` (dots included) in `[^\s@]`.  The `List.range ... .any`
search looks for a dot position `i` leaving a nonempty `B` (`1 ≤ i`) and a
suffix `C` of length `rest.length - i - 1 ≥ 2` (`i + 3 ≤ rest.length`). -/
def validShape (s : JStr) : Bool :=
  let a := s.takeWhile (fun c => !(c == '@'))
  match s.dropWhile (fun c => !(c == '@')) with
  | [] => false
  | _ :: rest =>
    !a.isEmpty && a.all okCh && rest.all okCh &&
    (List.range rest.length).any
      (fun i => rest.getD i ' ' == '.' && decide (1 ≤ i) && decide (i + 3 ≤ rest.length))

/-- Model of `isValidEmail` (src/auth.js lines 21-24): the regular
expression is tested against `String(email || "").trim()`. -/
def isValidEmail (email : JStr) : Bool := validShape (jsTrim email)

/-! ### JSON values and `JSON.parse` (raw-storage layer)

The claims about defensive parsing concern `safeJsonParse` applied to the
raw strings persisted in `localStorage`.  JSON values are modelled by
`Json`; numbers keep their source lexeme (the claims depend only on parse
success/failure and on the shape of the result, never on numeric value,
so the IEEE-754 interpretation of the lexeme is not modelled). -/

/-- JSON value produced by `JSON.parse`. -/
inductive Json where
  | null : Json
  | bool (b : Bool) : Json
  | num (lexeme : JStr) : Json
  | str (s : JStr) : Json
  | arr (elems : List Json) : Json
  | obj (members : List (JStr × Json)) : Json

/-- Decides whether a `Json` value is an array (the shape the `Users` and
`History` tables expect). -/
def jsonIsArr : Json → Bool
  | Json.arr _ => true
  | _ => false

/-- JSON insignificant whitespace (RFC 8259 / ECMA-404). -/
def jsonWs (c : Char) : Bool := c == ' ' || c == '\t' || c == '\n' || c == '\r'

/-- Skips insignificant whitespace. -/
def skipWs (s : JStr) : JStr := s.dropWhile jsonWs

/-- Value of one hexadecimal digit, if any. -/
def hexDigitVal (c : Char) : Option Nat :=
  if '0' ≤ c ∧ c ≤ '9' then some (c.toNat - 48)
  else if 'a' ≤ c ∧ c ≤ 'f' then some (c.toNat - 87)
  else if 'A' ≤ c ∧ c ≤ 'F' then some (c.toNat - 70)
  else none

/-- Parses the remainder of a JSON string literal (the opening quote
already consumed), accumulating the decoded characters in reverse.
Unescaped control characters and invalid escapes are parse errors, as in
`JSON.parse`.  A `\uXXXX` escape denoting a lone surrogate cannot be a
`Char`; `Char.ofNat` maps it to `'\0'` (no claim depends on it). -/
def parseStringRest : JStr → JStr → Option (JStr × JStr)
  | [], _ => none
  | '"' :: r, acc => some (acc.reverse, r)
  | '\\' :: '"' :: r, acc => parseStringRest r ('"' :: acc)
  | '\\' :: '\\' :: r, acc => parseStringRest r ('\\' :: acc)
  | '\\' :: '/' :: r, acc => parseStringRest r ('/' :: acc)
  | '\\' :: 'b' :: r, acc => parseStringRest r ('\x08' :: acc)
  | '\\' :: 'f' :: r, acc => parseStringRest r ('\x0c' :: acc)
  | '\\' :: 'n' :: r, acc => parseStringRest r ('\n' :: acc)
  | '\\' :: 'r' :: r, acc => parseStringRest r ('\x0d' :: acc)
  | '\\' :: 't' :: r, acc => parseStringRest r ('\t' :: acc)
  | '\\' :: 'u' :: h1 :: h2 :: h3 :: h4 :: r, acc =>
    match hexDigitVal h1, hexDigitVal h2, hexDigitVal h3, hexDigitVal h4 with
    | some a, some b, some c, some d =>
      parseStringRest r (Char.ofNat (((a * 16 + b) * 16 + c) * 16 + d) :: acc)
    | _, _, _, _ => none
  | '\\' :: _, _ => none
  | c :: r, acc => if c.toNat < 32 then none else parseStringRest r (c :: acc)

/-- Parses an optional exponent part `[eE][+-]?[0-9]+` after the marker
character, returning its lexeme. -/
def parseExpRest (mark : Char) (s : JStr) : Option (JStr × JStr) :=
  let (sgn, s1) : JStr × JStr :=
    match s with
    | '+' :: r => (['+'], r)
    | '-' :: r => (['-'], r)
    | _ => ([], s)
  let ds := s1.takeWhile Char.isDigit
  if ds = [] then none else some (mark :: (sgn ++ ds), s1.dropWhile Char.isDigit)

/-- Parses an optional fraction part `\.[0-9]+`. -/
def parseFrac (s : JStr) : Option (JStr × JStr) :=
  match s with
  | '.' :: r =>
    let ds := r.takeWhile Char.isDigit
    if ds = [] then none else some ('.' :: ds, r.dropWhile Char.isDigit)
  | _ => some ([], s)

/-- Parses the fraction/exponent continuation of a number. -/
def afterIntPart (acc : JStr) (s : JStr) : Option (JStr × JStr) :=
  (parseFrac s).bind fun f =>
    ((match f.2 with
      | 'e' :: r => parseExpRest 'e' r
      | 'E' :: r => parseExpRest 'E' r
      | r => some ([], r) : Option (JStr × JStr))).map fun e => (acc ++ f.1 ++ e.1, e.2)

/-- Parses a JSON number token `-?(0|[1-9][0-9]*)(\.[0-9]+)?([eE][+-]?[0-9]+)?`,
returning its lexeme. -/
def parseNumber (s : JStr) : Option (JStr × JStr) :=
  let (sgn, s1) : JStr × JStr :=
    match s with
    | '-' :: r => (['-'], r)
    | _ => ([], s)
  match s1 with
  | '0' :: r => afterIntPart (sgn ++ ['0']) r
  | c :: _ =>
    if c.isDigit then
      afterIntPart (sgn ++ s1.takeWhile Char.isDigit) (s1.dropWhile Char.isDigit)
    else none
  | [] => none

/-- Mode of the recursive-descent parser: a single value, the items of an
array after `[`, or the members of an object after `\x7b`. -/
inductive PMode where
  | val : PMode
  | arrItems (acc : List Json) : PMode
  | objItems (acc : List (JStr × Json)) : PMode

/-- Fuelled recursive-descent parser for JSON, following the `JSON.parse`
grammar.  Each recursive call consumes one unit of fuel; a chain of calls
always consumes input, so fuel `2 * length + 4` (supplied by `jsonParse`)
never runs out on well-formed input. -/
def parseJ : Nat → PMode → JStr → Option (Json × JStr)
  | 0, _, _ => none
  | f + 1, PMode.val, s =>
    match skipWs s with
    | 'n' :: 'u' :: 'l' :: 'l' :: r => some (Json.null, r)
    | 't' :: 'r' :: 'u' :: 'e' :: r => some (Json.bool true, r)
    | 'f' :: 'a' :: 'l' :: 's' :: 'e' :: r => some (Json.bool false, r)
    | '"' :: r => (parseStringRest r []).map fun p => (Json.str p.1, p.2)
    | '[' :: r =>
      (match skipWs r with
       | ']' :: r2 => some (Json.arr [], r2)
       | _ => parseJ f (PMode.arrItems []) r)
    | '\x7b' :: r =>
      (match skipWs r with
       | '\x7d' :: r2 => some (Json.obj [], r2)
       | _ => parseJ f (PMode.objItems []) r)
    | r => (parseNumber r).map fun p => (Json.num p.1, p.2)
  | f + 1, PMode.arrItems acc, s =>
    (parseJ f PMode.val s).bind fun p =>
      match skipWs p.2 with
      | ',' :: r2 => parseJ f (PMode.arrItems (p.1 :: acc)) r2
      | ']' :: r2 => some (Json.arr (p.1 :: acc).reverse, r2)
      | _ => none
  | f + 1, PMode.objItems acc, s =>
    match skipWs s with
    | '"' :: r =>
      (parseStringRest r []).bind fun kp =>
        match skipWs kp.2 with
        | ':' :: r2 =>
          (parseJ f PMode.val r2).bind fun vp =>
            match skipWs vp.2 with
            | ',' :: r3 => parseJ f (PMode.objItems ((kp.1, vp.1) :: acc)) r3
            | '\x7d' :: r3 => some (Json.obj ((kp.1, vp.1) :: acc).reverse, r3)
            | _ => none
        | _ => none
    | _ => none

/-- Model of `JSON.parse` (no reviver): parse one value and require only
whitespace to remain. -/
def jsonParse (s : JStr) : Option Json :=
  match parseJ (2 * s.length + 4) PMode.val s with
  | some (v, r) => if skipWs r = [] then some v else none
  | none => none

/-- Model of `safeJsonParse` (src/auth.js lines 10-12): `JSON.parse`
inside `try`, with the fallback returned exactly when parsing throws. -/
def safeJsonParse (s : JStr) (fallback : Json) : Json :=
  (jsonParse s).getD fallback

/-- Raw-storage model of `getUsers` (lines 14-16):
`safeJsonParse(localStorage.getItem(USERS_KEY) || "[]", [])`.  `raw` is
the stored string (`none` when the key is absent; the empty string is
falsy and also replaced by `"[]"`). -/
def getUsersJson (raw : Option JStr) : Json :=
  let s := raw.getD []
  safeJsonParse (if s = [] then "[]".data else s) (Json.arr [])

/-- Raw-storage model of `getProfile` (lines 75-77). -/
def getProfileJson (raw : Option JStr) : Json :=
  let s := raw.getD []
  safeJsonParse (if s = [] then "\x7b\x7d".data else s) (Json.obj [])

/-- Raw-storage model of `getHistory` (lines 82-84). -/
def getHistoryJson (raw : Option JStr) : Json :=
  let s := raw.getD []
  safeJsonParse (if s = [] then "[]".data else s) (Json.arr [])

/-- Raw-storage model of `getRefLog` (lines 90-92). -/
def getRefLogJson (raw : Option JStr) : Json :=
  let s := raw.getD []
  safeJsonParse (if s = [] then "\x7b\x7d".data else s) (Json.obj [])

/-! ### Typed storage layer

The operational claims concern runs in which the persisted tables have
their expected shapes; the tables are therefore modelled by typed fields
of `Store` (the raw JSON layer above covers the malformed-data claim). -/

/-- One element of the `cryptoex_users_v1` array:
`\x7b email, passHash, refCode, referredBy \x7d`.  In the source `refCode`
can be missing on legacy records and is read only through falsy tests and
`|| ""`, which cannot distinguish a missing field from `""`; it is
modelled as `JStr` with `[]` for "missing or empty", and likewise
`referredBy`. -/
structure User where
  email : JStr
  passHash : JStr
  refCode : JStr
  referredBy : JStr
deriving DecidableEq

/-- One click entry `\x7b ts, path \x7d` of a referral-ledger record. -/
structure Click where
  ts : Nat
  path : JStr
deriving DecidableEq

/-- One registration entry `\x7b ts, email \x7d` of a referral-ledger
record. -/
structure RegRec where
  ts : Nat
  email : JStr
deriving DecidableEq

/-- Value of the `cryptoex_ref_log_v1` object at one code:
`\x7b clicks, regs \x7d`. -/
structure RefEntry where
  clicks : List Click
  regs : List RegRec
deriving DecidableEq

/-- A profile record.  `updateProfile` can create the bare record
`\x7b email \x7d` without the optional fields, so each optional field is
an `Option` whose `none` models an absent (JS `undefined`) key. -/
structure ProfileRec where
  email : JStr
  lastName : Option JStr
  firstName : Option JStr
  middleName : Option JStr
  telegram : Option JStr
  phone : Option JStr
deriving DecidableEq

/-- A `fields` argument to `updateProfile`: a partial record over the
profile keys (`none` = key not present in the object literal).  An
`email` entry can be present, modelling a caller that tries to overwrite
the stored email. -/
structure ProfileFields where
  email : Option JStr
  lastName : Option JStr
  firstName : Option JStr
  middleName : Option JStr
  telegram : Option JStr
  phone : Option JStr
deriving DecidableEq

/-- One element of the `cryptoex_history_v1` array: an exchange payload
tagged with `email`. -/
structure HistRec where
  email : JStr
  payload : JStr
deriving DecidableEq

/-- The persisted state: one field per `localStorage` key of the module.
`session` and `incomingRef` are read only through `getItem(k) || ""`, so
`[]` models "absent". -/
structure Store where
  users : List User
  session : JStr
  profiles : List (JStr × ProfileRec)
  history : List HistRec
  refLog : List (JStr × RefEntry)
  incomingRef : JStr
deriving DecidableEq

/-- Ambient browser environment of one call: availability of
`crypto.subtle`, the SHA-256 digest (as a hex string) it would compute,
`Date.now()`, `location.pathname`, the `ref` query parameter of
`location.search`, and the stream of `Math.floor(Math.random() * 32)`
draws. -/
structure Env where
  cryptoAvailable : Bool
  subtle : JStr → JStr
  now : Nat
  path : JStr
  refParam : Option JStr
  rand : Nat → Fin 32

/-- Mutable world: the persisted store plus the position reached in the
random stream. -/
structure World where
  store : Store
  rng : Nat
deriving DecidableEq

/-- Result of `getCurrentUser` (src/auth.js line 187):
`\x7b email: u.email, refCode: u.refCode || "" \x7d`. -/
structure Viewer where
  email : JStr
  refCode : JStr
deriving DecidableEq

/-- Error taxonomy.  The source returns `\x7b ok:false, message \x7d` with
a distinct Russian message per failure; each constructor stands for one
message: `invalidEmail` ↔ "Введите корректный email …", `weakPassword` ↔
"Пароль должен быть не меньше 8 символов" (and its "Новый пароль"
variant), `duplicateEmail` ↔ "Такой email уже зарегистрирован",
`userNotFound` ↔ "Пользователь не найден", `wrongPassword` ↔ "Неверный
пароль", `notAuthenticated` ↔ "Вы не авторизованы". -/
inductive Err where
  | invalidEmail
  | weakPassword
  | duplicateEmail
  | userNotFound
  | wrongPassword
  | notAuthenticated
deriving DecidableEq

/-- Result value of an operation: `\x7b ok:true \x7d` or
`\x7b ok:false, message \x7d`.  Note that the success value carries no
other data, exactly like the source's object literal. -/
inductive Res where
  | ok
  | err (e : Err)
deriving DecidableEq

/-- The externally visible steps of a successful registration, used to
state the sequencing claim: the User is created (appended to the users
list), the staged referral is attributed and cleared, the Profile is
initialised, the Session is set. -/
inductive RStep where
  | createUser
  | attributeReferral
  | initProfile
  | setSession
deriving DecidableEq

/-- Model of `Array.prototype.find`: first element satisfying `p`. -/
def jsFind (p : α → Bool) : List α → Option α
  | [] => none
  | x :: xs => if p x then some x else jsFind p xs

/-- Reading a JS object used as a dictionary: value at the first matching
key. -/
def objGet (m : List (JStr × α)) (k : JStr) : Option α :=
  (jsFind (fun kv => kv.1 == k) m).map (fun kv => kv.2)

/-- Writing a JS object used as a dictionary: overwrite the key if
present, otherwise append it (JS objects keep insertion order). -/
def objSet (m : List (JStr × α)) (k : JStr) (v : α) : List (JStr × α) :=
  if m.any (fun kv => kv.1 == k) then
    m.map (fun kv => if kv.1 == k then (k, v) else kv)
  else m ++ [(k, v)]

/-- The 32-symbol alphabet of `generateRefCode` (line 117), excluding the
visually ambiguous `I`, `O`, `0`, `1`. -/
def alphabet : JStr := "ABCDEFGHJKLMNPQRSTUVWXYZ23456789".data

/-- Model of `generateRefCode` (lines 116-121): 8 draws from the random
stream, each picking one symbol of `alphabet`; returns the code and the
advanced stream position. -/
def generateRefCode (env : Env) (rng : Nat) : JStr × Nat :=
  ((List.range 8).map fun i => alphabet.getD (env.rand (rng + i)).val 'A', rng + 8)

/-- Rolling checksum of the `sha256Hex` fallback branch (line 30):
`h = (h * 31 + text.charCodeAt(i)) >>> 0` over the UTF-16 code units. -/
def weakChecksumNat (text : JStr) : Nat :=
  text.foldl (fun h c => (h * 31 + c.toNat) % 4294967296) 0

/-- Model of `Number.prototype.toString(16)` for a nonnegative integer:
lowercase hex digits, most significant first, `"0"` for zero. -/
def jsHexString (n : Nat) : JStr := Nat.toDigits 16 n

/-- Model of `sha256Hex` (lines 26-36).  When `crypto.subtle` is
available the resolved digest is `env.subtle text`; otherwise the
function silently computes the non-cryptographic rolling checksum and
returns it with a `"fallback_"` marker — it does not throw. -/
def sha256Hex (env : Env) (text : JStr) : JStr :=
  if env.cryptoAvailable then env.subtle text
  else "fallback_".data ++ jsHexString (weakChecksumNat text)

/-- Model of `getIncomingRef` (lines 96-98):
`String(localStorage.getItem(INCOMING_REF_KEY) || "").trim()`. -/
def getIncomingRef (s : Store) : JStr := jsTrim s.incomingRef

/-- Model of `setIncomingRef` (lines 99-101): stores the trimmed code. -/
def setIncomingRef (code : JStr) (s : Store) : Store :=
  { s with incomingRef := jsTrim code }

/-- Model of `clearIncomingRef` (lines 102-104). -/
def clearIncomingRef (s : Store) : Store := { s with incomingRef := [] }

/-- Model of `recordRefClick` (lines 123-132): no-op when the trimmed
code is empty; otherwise create the entry if missing, `unshift` the new
click `\x7b ts, path \x7d`, and keep the most recent 500. -/
def recordRefClick (env : Env) (code : JStr) (s : Store) : Store :=
  let c := jsTrim code
  if c = [] then s
  else
    let entry := (objGet s.refLog c).getD ⟨[], []⟩
    let entry2 := { entry with clicks := (Click.mk env.now env.path :: entry.clicks).take 500 }
    { s with refLog := objSet s.refLog c entry2 }

/-- Model of `recordRefReg` (lines 134-142): like `recordRefClick`, for
the `regs` list, tagging the trimmed registering email. -/
def recordRefReg (env : Env) (code email : JStr) (s : Store) : Store :=
  let c := jsTrim code
  if c = [] then s
  else
    let entry := (objGet s.refLog c).getD ⟨[], []⟩
    let entry2 := { entry with regs := (RegRec.mk env.now (jsTrim email) :: entry.regs).take 500 }
    { s with refLog := objSet s.refLog c entry2 }

/-- Model of `ensureUserRefCode` (lines 106-114): find the first user
whose lower-cased email matches, assign a fresh `refCode` if it has none,
and return the (possibly fresh) code together with the updated users list
(written back with `setUsers` by the source when it mutates) and the
stream position.  The source's `findIndex` + in-place mutation of the
found element is rendered as structural recursion to the first match. -/
def ensureUserRefCode (env : Env) (rng : Nat) (email : JStr) :
    List User → Option JStr × List User × Nat
  | [] => (none, [], rng)
  | u :: us =>
    if jsToLower u.email == jsToLower email then
      if u.refCode = [] then
        let g := generateRefCode env rng
        (some g.1, { u with refCode := g.1 } :: us, g.2)
      else (some u.refCode, u :: us, rng)
    else
      let r := ensureUserRefCode env rng email us
      (r.1, u :: r.2.1, r.2.2)

/-- The `users.find` + in-place `refCode` backfill of `getCurrentUser`
(lines 178-188), rendered like `ensureUserRefCode`: returns the found
(possibly backfilled) user, the updated list and the stream position. -/
def backfillFirst (env : Env) (rng : Nat) (email : JStr) :
    List User → Option User × List User × Nat
  | [] => (none, [], rng)
  | u :: us =>
    if jsToLower u.email == jsToLower email then
      if u.refCode = [] then
        let g := generateRefCode env rng
        (some { u with refCode := g.1 }, { u with refCode := g.1 } :: us, g.2)
      else (some u, u :: us, rng)
    else
      let r := backfillFirst env rng email us
      (r.1, u :: r.2.1, r.2.2)

/-- Model of `getCurrentUser` (lines 178-188): `null` without a session,
otherwise the first user matching the session email case-insensitively,
with a `refCode` backfill persisted via `setUsers`. -/
def getCurrentUser (env : Env) (w : World) : Option Viewer × World :=
  let email := w.store.session
  if email = [] then (none, w)
  else
    let r := backfillFirst env w.rng email w.store.users
    (r.1.map fun u => ⟨u.email, u.refCode⟩,
     ⟨{ w.store with users := r.2.1 }, r.2.2⟩)

/-- Model of `initRefFromUrl` (lines 144-161): when a truthy `ref` query
parameter is present, stage it as the incoming referral; then, if the
logged-in viewer's own code equals the parameter, return without
recording a click, else record the click. -/
def initRefFromUrl (env : Env) (w : World) : World :=
  match env.refParam with
  | none => w
  | some code =>
    if code = [] then w
    else
      let w1 : World := ⟨setIncomingRef code w.store, w.rng⟩
      let p := getCurrentUser env w1
      match p.1 with
      | some m =>
        let r := ensureUserRefCode env p.2.rng m.email p.2.store.users
        let w3 : World := ⟨{ p.2.store with users := r.2.1 }, r.2.2⟩
        match r.1 with
        | some myCode =>
          if myCode ≠ [] ∧ myCode = code then w3
          else ⟨recordRefClick env code w3.store, w3.rng⟩
        | none => ⟨recordRefClick env code w3.store, w3.rng⟩
      | none => ⟨recordRefClick env code p.2.store, p.2.rng⟩

/-- The profile record created at registration (line 218): the email plus
all optional fields present and empty. -/
def defaultProfile (e : JStr) : ProfileRec :=
  ⟨e, some [], some [], some [], some [], some []⟩

/-- Model of `register` (lines 190-223).  Returns the result, the new
world, and the trace of externally visible steps in execution order
(`createUser` at the `users.push` of line 209; the push is persisted by
the `setUsers` of line 214, after referral attribution).  All three
failure branches return before any store mutation. -/
def register (env : Env) (email password : JStr) (w : World) :
    Res × World × List RStep :=
  let e := jsTrim email
  let p := password
  if isValidEmail e = false then (Res.err Err.invalidEmail, w, [])
  else if p.length < 8 then (Res.err Err.weakPassword, w, [])
  else if w.store.users.any (fun u => jsToLower u.email == jsToLower e) then
    (Res.err Err.duplicateEmail, w, [])
  else
    let passHash := sha256Hex env p
    let g := generateRefCode env w.rng
    let incomingRef := getIncomingRef w.store
    let newUser : User := ⟨e, passHash, g.1, incomingRef⟩
    let s1 := if incomingRef ≠ [] then
        clearIncomingRef (recordRefReg env incomingRef e w.store)
      else w.store
    let s2 := { s1 with users := w.store.users ++ [newUser] }
    let s3 := { s2 with profiles :=
        if (objGet s2.profiles e).isNone then objSet s2.profiles e (defaultProfile e)
        else s2.profiles }
    let s4 := { s3 with session := e }
    (Res.ok, ⟨s4, g.2⟩,
      [RStep.createUser]
        ++ (if incomingRef ≠ [] then [RStep.attributeReferral] else [])
        ++ [RStep.initProfile, RStep.setSession])

/-- Model of `login` (lines 225-244): validate the email shape and the
password length, find the user case-insensitively, compare digests, set
the session to the stored email and backfill a missing `refCode`.  The
success value is `\x7b ok:true \x7d` — it does not carry the user. -/
def login (env : Env) (email password : JStr) (w : World) : Res × World :=
  let e := jsTrim email
  let p := password
  if isValidEmail e = false then (Res.err Err.invalidEmail, w)
  else if p.length < 8 then (Res.err Err.weakPassword, w)
  else
    match jsFind (fun u => jsToLower u.email == jsToLower e) w.store.users with
    | none => (Res.err Err.userNotFound, w)
    | some u =>
      if sha256Hex env p ≠ u.passHash then (Res.err Err.wrongPassword, w)
      else
        let s1 := { w.store with session := u.email }
        let r := ensureUserRefCode env w.rng u.email s1.users
        (Res.ok, ⟨{ s1 with users := r.2.1 }, r.2.2⟩)

/-- The merge `\x7b ...profile[email], ...fields, email \x7d` of
`updateProfile` (line 273): a field present in `fields` overwrites the
stored one, and the trailing `email` key wins over both. -/
def mergeFields (p : ProfileRec) (f : ProfileFields) (email : JStr) : ProfileRec :=
  { email := email
    lastName := f.lastName.orElse fun _ => p.lastName
    firstName := f.firstName.orElse fun _ => p.firstName
    middleName := f.middleName.orElse fun _ => p.middleName
    telegram := f.telegram.orElse fun _ => p.telegram
    phone := f.phone.orElse fun _ => p.phone }

/-- Model of `updateProfile` (lines 266-276): requires a session; creates
the bare record `\x7b email \x7d` if absent, merges, persists. -/
def updateProfile (f : ProfileFields) (w : World) : Res × World :=
  let email := w.store.session
  if email = [] then (Res.err Err.notAuthenticated, w)
  else
    let p0 := (objGet w.store.profiles email).getD ⟨email, none, none, none, none, none⟩
    (Res.ok, ⟨{ w.store with
        profiles := objSet w.store.profiles email (mergeFields p0 f email) }, w.rng⟩)

/-- Model of `getMyProfile` (lines 278-283): `null` without a session;
otherwise the stored record, or the bare fallback `\x7b email \x7d` whose
optional fields are absent. -/
def getMyProfile (w : World) : Option ProfileRec :=
  let email := w.store.session
  if email = [] then none
  else some ((objGet w.store.profiles email).getD ⟨email, none, none, none, none, none⟩)

/-- Iterated `recordRefClick` with per-call environments: `n` clicks for
the same code, the `i`-th recorded in environment `envs i`. -/
def applyClicks (envs : Nat → Env) (code : JStr) (s : Store) : Nat → Store
  | 0 => s
  | n + 1 => recordRefClick (envs n) code (applyClicks envs code s n)

/-! ### Concrete fixtures used by the witness theorems -/

/-- Environment whose digest is the identity function (the proofs only use
that the digest is deterministic). -/
def envA : Env := ⟨true, fun t => t, 7, "/p".data, none, fun _ => 0⟩

/-- Environment with a constant digest. -/
def envH : Env := ⟨true, fun _ => "H".data, 7, "/p".data, none, fun _ => 0⟩

/-- Environment where `crypto.subtle` is unavailable. -/
def envNoCrypto : Env := ⟨false, fun _ => "H".data, 7, "/p".data, none, fun _ => 0⟩

/-- Environment observing `?ref=CODEAAAA`. -/
def envSelfRef : Env := ⟨true, fun _ => "H".data, 7, "/p".data, some ("CODEAAAA".data), fun _ => 0⟩

/-- Per-click environments with distinct timestamps. -/
def envClicks : Nat → Env := fun i => ⟨true, fun _ => [], i, [], none, fun _ => 0⟩

/-- Empty storage. -/
def emptyStore : Store := ⟨[], [], [], [], [], []⟩

/-- Fresh world. -/
def w0 : World := ⟨emptyStore, 0⟩

/-- World with one registered user `a@b.com`. -/
def wLoginA : World := ⟨⟨[⟨"a@b.com".data, "H".data, "CODEAAAA".data, []⟩], [], [], [], [], []⟩, 0⟩

/-- World with one registered user `b@c.com`. -/
def wLoginB : World := ⟨⟨[⟨"b@c.com".data, "H".data, "CODEBBBB".data, []⟩], [], [], [], [], []⟩, 0⟩

/-- World where `a@b.com` (own code `CODEAAAA`) is logged in. -/
def wSelfRef : World :=
  ⟨⟨[⟨"a@b.com".data, "H".data, "CODEAAAA".data, []⟩], "a@b.com".data, [], [], [], []⟩, 0⟩

/-- World with an active session but no stored profile record. -/
def wSession : World := ⟨⟨[], "a@b.com".data, [], [], [], []⟩, 0⟩

/-- An update that tries to overwrite the stored email. -/
def fieldsEvil : ProfileFields := ⟨some ("evil@x.com".data), some ("N".data), none, none, none, none⟩

/-! ### Helper lemmas: characters, trimming, e-mail shape -/

/-- Characters are determined by their code points. -/
theorem char_eq_of_toNat_eq {a b : Char} (h : a.toNat = b.toNat) : a = b :=
  Char.ext (UInt32.toNat.inj h)

/-- Boolean character equality seen on code points. -/
theorem beq_char_iff_toNat (c d : Char) : (c == d) = true ↔ c.toNat = d.toNat := by
  constructor
  · intro h
    exact congrArg Char.toNat (eq_of_beq h)
  · intro h
    exact beq_iff_eq.mpr (char_eq_of_toNat_eq h)

/-- Code point of a lower-cased character. -/
theorem toNat_lowerChar (c : Char) :
    (lowerChar c).toNat = if 65 ≤ c.toNat ∧ c.toNat ≤ 90 then c.toNat + 32 else c.toNat := by
  unfold lowerChar
  split
  · next h =>
    have hv : (c.toNat + 32).isValidChar := Or.inl (by omega)
    rw [Char.ofNat, dif_pos hv]
    rfl
  · rfl

/-- Arithmetic characterisation of `jsIsWhitespace`. -/
theorem jsIsWhitespace_iff (c : Char) :
    jsIsWhitespace c = true ↔
      (c.toNat = 9 ∨ c.toNat = 10 ∨ c.toNat = 11 ∨ c.toNat = 12 ∨ c.toNat = 13 ∨
       c.toNat = 32 ∨ c.toNat = 0xa0 ∨ c.toNat = 0x1680 ∨
       (0x2000 ≤ c.toNat ∧ c.toNat ≤ 0x200a) ∨ c.toNat = 0x2028 ∨ c.toNat = 0x2029 ∨
       c.toNat = 0x202f ∨ c.toNat = 0x205f ∨ c.toNat = 0x3000 ∨ c.toNat = 0xfeff) := by
  simp [jsIsWhitespace, or_assoc]

/-- Lower-casing does not change whitespace-ness. -/
theorem jsIsWhitespace_lowerChar (c : Char) :
    jsIsWhitespace (lowerChar c) = jsIsWhitespace c := by
  by_cases hc : 65 ≤ c.toNat ∧ c.toNat ≤ 90
  · have h3 := toNat_lowerChar c
    rw [if_pos hc] at h3
    have hl : jsIsWhitespace (lowerChar c) = false := by
      cases hb : jsIsWhitespace (lowerChar c)
      · rfl
      · have := (jsIsWhitespace_iff _).mp hb
        omega
    have hr : jsIsWhitespace c = false := by
      cases hb : jsIsWhitespace c
      · rfl
      · have := (jsIsWhitespace_iff _).mp hb
        omega
    rw [hl, hr]
  · have h3 := toNat_lowerChar c
    rw [if_neg hc] at h3
    rw [char_eq_of_toNat_eq h3]

/-- Lower-casing does not change comparison with a character that is
neither an upper-case nor a lower-case ASCII letter. -/
theorem beq_lowerChar (c d : Char)
    (hd1 : ¬(97 ≤ d.toNat ∧ d.toNat ≤ 122)) (hd2 : ¬(65 ≤ d.toNat ∧ d.toNat ≤ 90)) :
    (lowerChar c == d) = (c == d) := by
  by_cases hc : 65 ≤ c.toNat ∧ c.toNat ≤ 90
  · have h3 := toNat_lowerChar c
    rw [if_pos hc] at h3
    have hl : (lowerChar c == d) = false := by
      cases hb : (lowerChar c == d)
      · rfl
      · have := (beq_char_iff_toNat _ _).mp hb
        omega
    have hr : (c == d) = false := by
      cases hb : (c == d)
      · rfl
      · have := (beq_char_iff_toNat _ _).mp hb
        omega
    rw [hl, hr]
  · have h3 := toNat_lowerChar c
    rw [if_neg hc] at h3
    rw [char_eq_of_toNat_eq h3]

/-- Head of `dropWhile` does not satisfy the predicate. -/
theorem head?_dropWhile (p : α → Bool) (l : List α) :
    ∀ x ∈ (l.dropWhile p).head?, p x = false := by
  induction l with
  | nil => simp
  | cons y ys ih =>
    intro x hx
    by_cases hy : p y
    · rw [List.dropWhile_cons, if_pos hy] at hx
      exact ih x hx
    · rw [List.dropWhile_cons, if_neg hy] at hx
      simp only [Option.mem_def, List.head?_cons, Option.some.injEq] at hx
      subst hx
      exact Bool.of_not_eq_true hy

/-- A list whose head does not satisfy the predicate is untouched by
`dropWhile`. -/
theorem dropWhile_eq_self_of_head (p : α → Bool) (l : List α)
    (h : ∀ x ∈ l.head?, p x = false) : l.dropWhile p = l := by
  cases l with
  | nil => rfl
  | cons y ys =>
    have hy := h y (by simp)
    rw [List.dropWhile_cons, if_neg (by simp [hy])]

/-- Head of an append with a nonempty left part. -/
theorem head?_append_left (l l' : List α) (h : l ≠ []) : (l ++ l').head? = l.head? := by
  cases l with
  | nil => exact absurd rfl h
  | cons x xs => rfl

/-- Dropping a prefix does not change the last element. -/
theorem getLast?_dropWhile (p : α → Bool) (l : List α) (h : l.dropWhile p ≠ []) :
    (l.dropWhile p).getLast? = l.getLast? := by
  induction l with
  | nil => exact absurd rfl h
  | cons y ys ih =>
    by_cases hy : p y
    · rw [List.dropWhile_cons, if_pos hy] at h ⊢
      have hys : ys.dropWhile p ≠ [] := h
      have hys' : ys ≠ [] := by
        intro he
        rw [he] at hys
        exact hys rfl
      rw [ih hys, ← List.head?_reverse, ← List.head?_reverse, List.reverse_cons,
        head?_append_left _ _ (by simpa using hys')]
    · rw [List.dropWhile_cons, if_neg hy]

/-- Trimming is idempotent. -/
theorem jsTrim_idem (s : JStr) : jsTrim (jsTrim s) = jsTrim s := by
  unfold jsTrim
  set A := s.dropWhile jsIsWhitespace with hA
  set B := A.reverse.dropWhile jsIsWhitespace with hB
  have h1 : B.reverse.dropWhile jsIsWhitespace = B.reverse := by
    apply dropWhile_eq_self_of_head
    intro x hx
    rw [List.head?_reverse] at hx
    have hBne : B ≠ [] := by
      intro he
      rw [he] at hx
      simp at hx
    have h2 : B.getLast? = A.reverse.getLast? := by
      rw [hB]
      exact getLast?_dropWhile _ _ (by rw [← hB]; exact hBne)
    rw [h2, List.getLast?_reverse] at hx
    exact head?_dropWhile jsIsWhitespace s x (by rw [← hA] at *; exact hx)
  rw [h1, List.reverse_reverse]
  have h2 : B.dropWhile jsIsWhitespace = B := by
    apply dropWhile_eq_self_of_head
    intro x hx
    rw [hB] at hx
    exact head?_dropWhile jsIsWhitespace A.reverse x hx
  rw [h2]

/-- The regex character test composed with lower-casing. -/
theorem lower_at : ((fun c : Char => !(c == '@')) ∘ lowerChar) = (fun c : Char => !(c == '@')) := by
  funext c
  simp only [Function.comp_apply]
  rw [beq_lowerChar c '@' (by decide) (by decide)]

/-- The class `[^\s@]` is invariant under lower-casing. -/
theorem okCh_lowerChar (c : Char) : okCh (lowerChar c) = okCh c := by
  rw [okCh, okCh, jsIsWhitespace_lowerChar, beq_lowerChar c '@' (by decide) (by decide)]

/-- The e-mail regular expression cannot distinguish letter casings. -/
theorem validShape_toLower (s : JStr) : validShape (jsToLower s) = validShape s := by
  rw [validShape, validShape, jsToLower]
  rw [List.takeWhile_map, List.dropWhile_map, lower_at]
  cases hd : s.dropWhile (fun c => !(c == '@')) with
  | nil => rfl
  | cons y rest =>
    simp only [List.map_cons]
    have e1 : ((s.takeWhile fun c => !(c == '@')).map lowerChar).isEmpty
        = (s.takeWhile fun c => !(c == '@')).isEmpty := by
      rcases h : s.takeWhile fun c => !(c == '@') with _ | _
      · rfl
      · rfl
    have e2 : ∀ l : List Char, (l.map lowerChar).all okCh = l.all okCh := by
      intro l
      induction l with
      | nil => rfl
      | cons z zs ih => simp [List.all_cons, okCh_lowerChar, ih]
    have e3 : ∀ (l : List Char) i, (l.map lowerChar).getD i ' ' = lowerChar (l.getD i ' ') := by
      intro l i
      rw [List.getD, List.getD, List.get?_map]
      cases l.get? i with
      | none => decide
      | some c => rfl
    have e4 : ((rest.map lowerChar).length) = rest.length := List.length_map ..
    rw [e1, e2, e2]
    simp only [e4]
    have e5 : (fun i => (rest.map lowerChar).getD i ' ' == '.' && decide (1 ≤ i)
          && decide (i + 3 ≤ rest.length))
        = (fun i => rest.getD i ' ' == '.' && decide (1 ≤ i) && decide (i + 3 ≤ rest.length)) := by
      funext i
      rw [e3, beq_lowerChar _ '.' (by decide) (by decide)]
    rw [e5]

/-- Validity of an e-mail only depends on its trimmed form. -/
theorem isValidEmail_trim (s : JStr) : isValidEmail (jsTrim s) = isValidEmail s := by
  rw [isValidEmail, isValidEmail, jsTrim_idem]

/-- Two trimmed e-mails equal up to letter casing are equally valid. -/
theorem validShape_congr_lower (a b : JStr) (h : jsToLower a = jsToLower b) :
    validShape a = validShape b := by
  rw [← validShape_toLower a, h, validShape_toLower]

/-! ### Helper lemmas: finds, object updates, generated codes -/

/-- A found element satisfies the predicate and belongs to the list. -/
theorem jsFind_eq_some {p : α → Bool} :
    ∀ {l : List α} {x : α}, jsFind p l = some x → p x = true ∧ x ∈ l := by
  intro l
  induction l with
  | nil => intro x h; exact absurd h (by simp [jsFind])
  | cons y ys ih =>
    intro x h
    rw [jsFind] at h
    by_cases hy : p y
    · rw [if_pos hy] at h
      cases h
      exact ⟨hy, by simp⟩
    · rw [if_neg hy] at h
      obtain ⟨h1, h2⟩ := ih h
      exact ⟨h1, by simp [h2]⟩

/-- Finding skips a block of non-matching elements. -/
theorem jsFind_append_none {p : α → Bool} :
    ∀ {l1 : List α} (l2 : List α), (∀ x ∈ l1, p x = false) →
      jsFind p (l1 ++ l2) = jsFind p l2 := by
  intro l1
  induction l1 with
  | nil => intro l2 _; rfl
  | cons y ys ih =>
    intro l2 h
    rw [List.cons_append, jsFind, if_neg (by simp [h y (by simp)])]
    exact ih l2 fun x hx => h x (by simp [hx])

/-- Reading back the key just written. -/
theorem objGet_objSet_self (m : List (JStr × α)) (k : JStr) (v : α) :
    objGet (objSet m k v) k = some v := by
  rw [objSet]
  by_cases hm : m.any (fun kv => kv.1 == k)
  · rw [if_pos hm]
    rw [objGet]
    induction m with
    | nil => exact absurd hm (by simp)
    | cons y ys ih =>
      by_cases hy : y.1 == k
      · rw [List.map_cons, if_pos hy, jsFind, if_pos (by simp)]
        rfl
      · rw [List.map_cons, if_neg hy, jsFind, if_neg hy]
        apply ih
        rw [List.any_cons] at hm
        simp only [hy, Bool.false_or] at hm
        exact hm
  · rw [if_neg hm]
    rw [objGet, jsFind_append_none _ (by
      intro x hx
      rcases hb : (x.1 == k) with _ | _
      · rfl
      · exact absurd (List.any_eq_true.mpr ⟨x, hx, hb⟩) hm)]
    rw [jsFind, if_pos (by simp)]
    rfl

/-- Generated referral codes have 8 characters, in particular they are
truthy. -/
theorem generateRefCode_ne_nil (env : Env) (rng : Nat) : (generateRefCode env rng).1 ≠ [] := by
  intro h
  have := congrArg List.length h
  simp [generateRefCode] at this

/-- Effect of `ensureUserRefCode` on the user found by a case-insensitive
lookup: after the call the list contains a user with the same stored
email and a nonempty `refCode`. -/
theorem ensureUserRefCode_found (env : Env) (rng : Nat) (key : JStr) :
    ∀ (users : List User) (u0 : User),
      jsFind (fun u => jsToLower u.email == jsToLower key) users = some u0 →
      ∃ u' ∈ (ensureUserRefCode env rng u0.email users).2.1,
        u'.email = u0.email ∧ u'.refCode ≠ [] := by
  intro users
  induction users with
  | nil => intro u0 h; exact absurd h (by simp [jsFind])
  | cons u us ih =>
    intro u0 h
    rw [jsFind] at h
    by_cases hu : jsToLower u.email == jsToLower key
    · rw [if_pos hu] at h
      cases h
      rw [ensureUserRefCode, if_pos (by simp)]
      by_cases hrc : u.refCode = []
      · rw [if_pos hrc]
        exact ⟨{ u with refCode := (generateRefCode env rng).1 }, by simp,
          rfl, generateRefCode_ne_nil env rng⟩
      · rw [if_neg hrc]
        exact ⟨u, by simp, rfl, hrc⟩
    · rw [if_neg hu] at h
      have hu0 : jsToLower u0.email = jsToLower key :=
        eq_of_beq (jsFind_eq_some h).1
      have hne : ¬ (jsToLower u.email == jsToLower u0.email) = true := by
        intro hb
        rw [eq_of_beq hb, hu0] at hu
        exact hu (by simp)
      rw [ensureUserRefCode, if_neg hne]
      obtain ⟨u', hmem, he, hrc⟩ := ih u0 h
      exact ⟨u', by simp [hmem], he, hrc⟩

/-- Truncated insertion absorbs an earlier truncation. -/
theorem take_cons_take (x : α) (l : List α) (n : Nat) :
    (x :: l.take n).take n = (x :: l).take n := by
  cases n with
  | zero => rfl
  | succ m =>
    rw [List.take_succ_cons, List.take_succ_cons, List.take_take, min_eq_left (by omega)]

/-- Success shape of `register`: when the trimmed email is valid, the
password long enough and no case-insensitive duplicate exists, the call
succeeds and appends exactly the new user record. -/
theorem register_ok (env : Env) (email password : JStr) (w : World)
    (hv : isValidEmail (jsTrim email) = true)
    (hp : ¬ password.length < 8)
    (hd : w.store.users.any (fun u => jsToLower u.email == jsToLower (jsTrim email)) = false) :
    (register env email password w).1 = Res.ok ∧
    (register env email password w).2.1.store.users
      = w.store.users ++ [⟨jsTrim email, sha256Hex env password,
          (generateRefCode env w.rng).1, getIncomingRef w.store⟩] := by
  have hv' : isValidEmail email = true := by rw [← isValidEmail_trim]; exact hv
  rw [register, isValidEmail_trim, if_neg (by simp [hv']), if_neg hp, if_neg (by simp [hd])]
  exact ⟨rfl, rfl⟩

/-! ### Claim theorems -/

/-- Claim C2, counterexample.  The claim states that when the strong
digest primitive is unavailable the hashing operation refuses to operate
or surfaces a capability error rather than returning a weak hash value.
In fact, with `crypto.subtle` unavailable, `sha256Hex` returns the
non-cryptographic rolling checksum (prefixed `"fallback_"`), and
`register` succeeds storing that weak value as the password hash. -/
theorem sha256Hex_no_crypto_counterexample :
    (register envNoCrypto ("a@b.com".data) ("password1".data) w0).1 = Res.ok ∧
    ((register envNoCrypto ("a@b.com".data) ("password1".data) w0).2.1.store.users.map
        User.passHash)
      = ["fallback_".data ++ jsHexString (weakChecksumNat ("password1".data))] ∧
    sha256Hex envNoCrypto ("password1".data)
      = "fallback_".data ++ jsHexString (weakChecksumNat ("password1".data)) := by
  decide

/-- Claim C2, amended.  When the strong digest primitive is unavailable,
`sha256Hex` silently returns the non-cryptographic 31-multiplier rolling
checksum of the text, prefixed with `"fallback_"`; no error is raised and
callers cannot distinguish the degraded mode from the result value's type. -/
theorem sha256Hex_fallback_checksum (env : Env) (text : JStr)
    (h : env.cryptoAvailable = false) :
    sha256Hex env text = "fallback_".data ++ jsHexString (weakChecksumNat text) := by
  rw [sha256Hex, if_neg (by simp [h])]

/-- Witness for `sha256Hex_fallback_checksum` at a concrete environment
and text. -/
theorem sha256Hex_fallback_checksum_witness :
    sha256Hex envNoCrypto ("x".data)
      = "fallback_".data ++ jsHexString (weakChecksumNat ("x".data)) :=
  sha256Hex_fallback_checksum envNoCrypto ("x".data) rfl

/-- Claim C3.  `register` performs validation first and, on success,
its externally visible steps happen in the order: create the User (the
`users.push`), attribute and clear a staged referral (when one is
staged), initialise the Profile, set the Session; on any failure
(invalid email, short password, duplicate email) the returned world — in
particular every stored table — is exactly the input world and no step
has been taken. -/
theorem register_atomic_sequenced (env : Env) (email password : JStr) (w : World) :
    ((register env email password w).1 ≠ Res.ok →
      (register env email password w).2.1 = w ∧ (register env email password w).2.2 = []) ∧
    ((register env email password w).1 = Res.ok →
      (register env email password w).2.2
        = [RStep.createUser]
          ++ (if getIncomingRef w.store ≠ [] then [RStep.attributeReferral] else [])
          ++ [RStep.initProfile, RStep.setSession]) := by
  rw [register]
  by_cases h1 : isValidEmail (jsTrim email) = false
  · rw [if_pos h1]
    exact ⟨fun _ => ⟨rfl, rfl⟩, fun h => absurd h (by simp)⟩
  · rw [if_neg h1]
    by_cases h2 : password.length < 8
    · rw [if_pos h2]
      exact ⟨fun _ => ⟨rfl, rfl⟩, fun h => absurd h (by simp)⟩
    · rw [if_neg h2]
      by_cases h3 : (w.store.users.any fun u => jsToLower u.email == jsToLower (jsTrim email)) = true
      · rw [if_pos h3]
        exact ⟨fun _ => ⟨rfl, rfl⟩, fun h => absurd h (by simp)⟩
      · rw [if_neg h3]
        exact ⟨fun h => absurd rfl h, fun _ => rfl⟩

/-- Witness for `register_atomic_sequenced`: an invalid email leaves the
world untouched, and a registration with a staged referral produces the
four steps in order. -/
theorem register_atomic_sequenced_witness :
    ((register envA ("bad".data) ("password1".data) w0).2.1 = w0 ∧
      (register envA ("bad".data) ("password1".data) w0).2.2 = []) ∧
    (register envA ("a@b.com".data) ("password1".data)
        ⟨⟨[], [], [], [], [], "REF".data⟩, 0⟩).2.2
      = [RStep.createUser, RStep.attributeReferral, RStep.initProfile, RStep.setSession] :=
  ⟨(register_atomic_sequenced envA ("bad".data) ("password1".data) w0).1 (by decide),
   (register_atomic_sequenced envA ("a@b.com".data) ("password1".data)
      ⟨⟨[], [], [], [], [], "REF".data⟩, 0⟩).2 (by decide)⟩

/-- Claim C8, counterexample.  The claim states that for every stored
string every read returns a value of the expected shape, falling back to
an empty default.  But `safeJsonParse` only guards against parse
exceptions: the well-formed JSON text `"\x7b\x7d"` (an empty object)
stored under the Users key is returned as parsed — an object, not the
expected array shape. -/
theorem getUsersJson_wrong_shape_counterexample :
    getUsersJson (some ("\x7b\x7d".data)) = Json.obj [] ∧
    jsonIsArr (getUsersJson (some ("\x7b\x7d".data))) = false :=
  ⟨rfl, rfl⟩

/-- Claim C8, amended.  Reads never raise: when the stored string fails
to parse as JSON (and when the key is absent or empty), every read
returns its empty default structure (`[]` for Users/History, an empty
object for Profiles/RefLog).  A stored string that is valid JSON of the
wrong shape is however returned as parsed, so the expected shape is not
guaranteed. -/
theorem safeJsonParse_malformed_default (raw : JStr) (h : jsonParse raw = none) :
    getUsersJson (some raw) = Json.arr [] ∧ getProfileJson (some raw) = Json.obj [] ∧
    getHistoryJson (some raw) = Json.arr [] ∧ getRefLogJson (some raw) = Json.obj [] ∧
    getUsersJson none = Json.arr [] ∧ getProfileJson none = Json.obj [] ∧
    getHistoryJson none = Json.arr [] ∧ getRefLogJson none = Json.obj [] := by
  by_cases hr : raw = []
  · subst hr
    exact ⟨rfl, rfl, rfl, rfl, rfl, rfl, rfl, rfl⟩
  · refine ⟨?_, ?_, ?_, ?_, rfl, rfl, rfl, rfl⟩ <;>
      simp only [getUsersJson, getProfileJson, getHistoryJson, getRefLogJson, Option.getD] <;>
        rw [if_neg hr, safeJsonParse, h] <;> rfl

/-- Witness for `safeJsonParse_malformed_default` at a malformed stored
string. -/
theorem safeJsonParse_malformed_default_witness :
    getUsersJson (some ("not json".data)) = Json.arr [] ∧
    getProfileJson (some ("not json".data)) = Json.obj [] ∧
    getHistoryJson (some ("not json".data)) = Json.arr [] ∧
    getRefLogJson (some ("not json".data)) = Json.obj [] ∧
    getUsersJson none = Json.arr [] ∧ getProfileJson none = Json.obj [] ∧
    getHistoryJson none = Json.arr [] ∧ getRefLogJson none = Json.obj [] :=
  safeJsonParse_malformed_default ("not json".data) rfl

/-- Claim C9, counterexample.  The claim states that with an active
session and no stored profile record, the profile read returns a record
with the email and all optional fields present as empty defaults.  In
fact the fallback of `getMyProfile` is the bare record containing only
`email`: the optional fields are absent, not empty strings. -/
theorem getMyProfile_default_counterexample :
    (getMyProfile wSession).isSome = true ∧
    getMyProfile wSession ≠ some (defaultProfile ("a@b.com".data)) ∧
    getMyProfile wSession = some ⟨"a@b.com".data, none, none, none, none, none⟩ := by
  decide

/-- Claim C9, amended.  With an active session the profile read never
fails: when no record is stored for the session email it returns the
bare record containing the email, with all optional fields absent
(JS `undefined`), not empty-string defaults. -/
theorem getMyProfile_absent_bare (w : World) (e : JStr)
    (hs : w.store.session = e) (hne : e ≠ [])
    (habs : objGet w.store.profiles e = none) :
    getMyProfile w = some ⟨e, none, none, none, none, none⟩ := by
  simp only [getMyProfile, hs]
  rw [if_neg hne, habs]
  rfl

/-- Witness for `getMyProfile_absent_bare` at a concrete world with a
session and no profile record. -/
theorem getMyProfile_absent_bare_witness :
    getMyProfile wSession = some ⟨"a@b.com".data, none, none, none, none, none⟩ :=
  getMyProfile_absent_bare wSession ("a@b.com".data) rfl (by decide) rfl

/-- Claim C10.  For any active session `e` and any `fields` object —
including one carrying a different `email` — the record persisted under
key `e` by `updateProfile` has `email = e`: the trailing `email` key of
the object spread wins, so a caller can never change the stored email. -/
theorem updateProfile_email_immutable (f : ProfileFields) (w : World)
    (hs : w.store.session ≠ []) :
    ∃ r, objGet (updateProfile f w).2.store.profiles w.store.session = some r ∧
      r.email = w.store.session := by
  simp only [updateProfile]
  rw [if_neg hs]
  exact ⟨_, objGet_objSet_self .., rfl⟩

/-- Witness for `updateProfile_email_immutable` with a `fields` object
that tries to overwrite the email. -/
theorem updateProfile_email_immutable_witness :
    ∃ r, objGet (updateProfile fieldsEvil wSession).2.store.profiles wSession.store.session
        = some r ∧ r.email = wSession.store.session :=
  updateProfile_email_immutable fieldsEvil wSession (by decide)

/-- Claim C4, counterexample.  The claim quantifies over *any* two
passwords, but the password-length guard of `register` runs before the
duplicate check: a second registration of the same email (different
casing) with the short password `"x"` fails with `weakPassword`, not
`duplicateEmail`. -/
theorem register_duplicate_counterexample :
    (register envA ("a@b.com".data) ("password1".data) w0).1 = Res.ok ∧
    (register envA ("A@B.com".data) ("x".data)
        (register envA ("a@b.com".data) ("password1".data) w0).2.1).1
      = Res.err Err.weakPassword ∧
    (register envA ("A@B.com".data) ("x".data)
        (register envA ("a@b.com".data) ("password1".data) w0).2.1).1
      ≠ Res.err Err.duplicateEmail := by
  decide

/-- Claim C4, amended.  After a successful `register(email, p1)`, a
second `register` with the same email in any letter casing *and a
password of length at least 8* fails with `duplicateEmail` (a shorter
second password fails earlier with `weakPassword`); and `register`
preserves the invariant that at most one user exists per
case-insensitively normalised email. -/
theorem register_duplicate_email :
    (∀ (env env2 : Env) (w : World) (e p1 e2 p2 : JStr),
      (register env e p1 w).1 = Res.ok →
      jsToLower (jsTrim e2) = jsToLower (jsTrim e) →
      ¬ p2.length < 8 →
      (register env2 e2 p2 (register env e p1 w).2.1).1 = Res.err Err.duplicateEmail) ∧
    (∀ (env : Env) (w : World) (e p : JStr),
      w.store.users.Pairwise (fun u v => jsToLower u.email ≠ jsToLower v.email) →
      (register env e p w).2.1.store.users.Pairwise
        (fun u v => jsToLower u.email ≠ jsToLower v.email)) := by
  constructor
  · intro env env2 w e p1 e2 p2 h1 hcase hlen
    by_cases hv : isValidEmail (jsTrim e) = false
    · rw [register, if_pos hv] at h1
      exact absurd h1 (by simp)
    · by_cases hp : p1.length < 8
      · rw [register, if_neg hv, if_pos hp] at h1
        exact absurd h1 (by simp)
      · by_cases hd : (w.store.users.any fun u =>
            jsToLower u.email == jsToLower (jsTrim e)) = true
        · rw [register, if_neg hv, if_neg hp, if_pos hd] at h1
          exact absurd h1 (by simp)
        · have hv1 : isValidEmail (jsTrim e) = true := by
            cases hb : isValidEmail (jsTrim e)
            · exact absurd hb hv
            · rfl
          obtain ⟨-, husers⟩ := register_ok env e p1 w hv1 hp (by
            cases hb : (w.store.users.any fun u =>
                jsToLower u.email == jsToLower (jsTrim e))
            · rfl
            · exact absurd hb hd)
          have hv2 : isValidEmail (jsTrim e2) = true := by
            have hv1' : validShape (jsTrim e) = true := by
              have := hv1
              rw [isValidEmail_trim, isValidEmail] at this
              exact this
            rw [isValidEmail_trim, isValidEmail, validShape_congr_lower _ _ hcase]
            exact hv1'
          have hdup : ((register env e p1 w).2.1.store.users.any fun u =>
              jsToLower u.email == jsToLower (jsTrim e2)) = true := by
            rw [husers]
            refine List.any_eq_true.mpr ⟨⟨jsTrim e, sha256Hex env p1,
              (generateRefCode env w.rng).1, getIncomingRef w.store⟩, by simp, ?_⟩
            rw [hcase]
            simp
          rw [register, if_neg (by simp [hv2]), if_neg hlen, if_pos hdup]
  · intro env w e p hpw
    by_cases hv : isValidEmail (jsTrim e) = false
    · rw [register, if_pos hv]
      exact hpw
    · by_cases hp : p.length < 8
      · rw [register, if_neg hv, if_pos hp]
        exact hpw
      · by_cases hd : (w.store.users.any fun u =>
            jsToLower u.email == jsToLower (jsTrim e)) = true
        · rw [register, if_neg hv, if_neg hp, if_pos hd]
          exact hpw
        · have hv1 : isValidEmail (jsTrim e) = true := by
            cases hb : isValidEmail (jsTrim e)
            · exact absurd hb hv
            · rfl
          have hd' : (w.store.users.any fun u =>
              jsToLower u.email == jsToLower (jsTrim e)) = false := by
            cases hb : (w.store.users.any fun u =>
                jsToLower u.email == jsToLower (jsTrim e))
            · rfl
            · exact absurd hb hd
          obtain ⟨-, husers⟩ := register_ok env e p w hv1 hp hd'
          rw [husers]
          rw [List.pairwise_append]
          refine ⟨hpw, by simp, ?_⟩
          intro a ha b hb
          simp only [List.mem_singleton] at hb
          subst hb
          intro he
          have hbeq : (jsToLower a.email == jsToLower (jsTrim e)) = true := by
            simp only [he]
            simp
          have hany : (w.store.users.any fun u =>
              jsToLower u.email == jsToLower (jsTrim e)) = true :=
            List.any_eq_true.mpr ⟨a, ha, hbeq⟩
          exact absurd hany (by simp [hd'])

/-- Witness for `register_duplicate_email`: both conjuncts applied at a
concrete double registration with different casings. -/
theorem register_duplicate_email_witness :
    (register envA ("A@B.com".data) ("password2".data)
        (register envA ("a@b.com".data) ("password1".data) w0).2.1).1
      = Res.err Err.duplicateEmail ∧
    (register envA ("a@b.com".data) ("password1".data) w0).2.1.store.users.Pairwise
      (fun u v => jsToLower u.email ≠ jsToLower v.email) :=
  ⟨register_duplicate_email.1 envA envA w0 ("a@b.com".data) ("password1".data)
      ("A@B.com".data) ("password2".data) (by decide) (by decide) (by decide),
   register_duplicate_email.2 envA w0 ("a@b.com".data) ("password1".data)
     (by simp [w0, emptyStore])⟩

/-- Claim C1.  For every email passing the validity check, every
password of length at least 8, and every world containing no user with a
case-insensitively equal email, `register` succeeds and an immediately
following `login` with the same credentials succeeds (hashing is the
same deterministic digest on both calls). -/
theorem register_then_login (env : Env) (email password : JStr) (w : World)
    (hv : isValidEmail email = true)
    (hp : 8 ≤ password.length)
    (hf : ∀ u ∈ w.store.users, jsToLower u.email ≠ jsToLower (jsTrim email)) :
    (register env email password w).1 = Res.ok ∧
    (login env email password (register env email password w).2.1).1 = Res.ok := by
  have hv' : isValidEmail (jsTrim email) = true := by
    rw [isValidEmail_trim]
    exact hv
  have hp' : ¬ password.length < 8 := by omega
  have hd : (w.store.users.any fun u =>
      jsToLower u.email == jsToLower (jsTrim email)) = false := by
    cases hb : (w.store.users.any fun u => jsToLower u.email == jsToLower (jsTrim email))
    · rfl
    · obtain ⟨u, hu, hbeq⟩ := List.any_eq_true.mp hb
      exact absurd (eq_of_beq hbeq) (hf u hu)
  obtain ⟨hok, husers⟩ := register_ok env email password w hv' hp' hd
  refine ⟨hok, ?_⟩
  simp only [login]
  rw [if_neg (by simp [hv']), if_neg hp']
  have hfind : jsFind (fun u => jsToLower u.email == jsToLower (jsTrim email))
      (register env email password w).2.1.store.users
      = some ⟨jsTrim email, sha256Hex env password,
          (generateRefCode env w.rng).1, getIncomingRef w.store⟩ := by
    rw [husers, jsFind_append_none _ (by
      intro x hx
      cases hb : (jsToLower x.email == jsToLower (jsTrim email))
      · rfl
      · exact absurd (eq_of_beq hb) (hf x hx))]
    rw [jsFind, if_pos (by simp)]
  simp only [hfind]
  rw [if_neg (by simp)]

/-- Witness for `register_then_login` at concrete fresh credentials. -/
theorem register_then_login_witness :
    (register envA ("a@b.com".data) ("password1".data) w0).1 = Res.ok ∧
    (login envA ("a@b.com".data) ("password1".data)
        (register envA ("a@b.com".data) ("password1".data) w0).2.1).1 = Res.ok :=
  register_then_login envA ("a@b.com".data) ("password1".data) w0
    (by decide) (by decide) (by simp [w0, emptyStore])

/-- Claim C7, counterexample.  The claim states that a successful login
returns the matched User record, not merely a success flag.  In fact the
success value of `login` is the bare `ok` result: two logins matching
*different* stored users produce identical results, so the result cannot
carry the matched user. -/
theorem login_flag_counterexample :
    (login envH ("a@b.com".data) ("password1".data) wLoginA).1 = Res.ok ∧
    (login envH ("b@c.com".data) ("password1".data) wLoginB).1 = Res.ok ∧
    (login envH ("a@b.com".data) ("password1".data) wLoginA).1
      = (login envH ("b@c.com".data) ("password1".data) wLoginB).1 ∧
    jsFind (fun u => jsToLower u.email == jsToLower (jsTrim ("a@b.com".data)))
        wLoginA.store.users
      ≠ jsFind (fun u => jsToLower u.email == jsToLower (jsTrim ("b@c.com".data)))
        wLoginB.store.users := by
  decide

/-- Claim C7, amended.  A successful `login` returns only the success
flag (see the counterexample); it sets the session to the matched user's
stored email and backfills a missing `refCode` (afterwards the users
table holds a user with the matched normalised email, a nonempty
`refCode`, and the session pointing at it).  Every failure is one of
`invalidEmail`, `weakPassword`, `userNotFound`, `wrongPassword`. -/
theorem login_flag_and_backfill (env : Env) (email password : JStr) (w : World) :
    ((login env email password w).1 = Res.ok ∨
     (login env email password w).1 = Res.err Err.invalidEmail ∨
     (login env email password w).1 = Res.err Err.weakPassword ∨
     (login env email password w).1 = Res.err Err.userNotFound ∨
     (login env email password w).1 = Res.err Err.wrongPassword) ∧
    ((login env email password w).1 = Res.ok →
      ∃ u ∈ (login env email password w).2.store.users,
        jsToLower u.email = jsToLower (jsTrim email) ∧ u.refCode ≠ [] ∧
        (login env email password w).2.store.session = u.email) := by
  simp only [login]
  by_cases hv : isValidEmail (jsTrim email) = false
  · rw [if_pos hv]
    exact ⟨Or.inr (Or.inl (by trivial)), fun h => absurd h (by simp)⟩
  · rw [if_neg hv]
    by_cases hp : password.length < 8
    · rw [if_pos hp]
      exact ⟨Or.inr (Or.inr (Or.inl (by trivial))), fun h => absurd h (by simp)⟩
    · rw [if_neg hp]
      cases hfind : jsFind (fun u => jsToLower u.email == jsToLower (jsTrim email))
          w.store.users with
      | none =>
        simp only [hfind]
        exact ⟨Or.inr (Or.inr (Or.inr (Or.inl (by trivial)))), fun h => absurd h (by simp)⟩
      | some u0 =>
        simp only [hfind]
        by_cases hh : sha256Hex env password ≠ u0.passHash
        · rw [if_pos hh]
          exact ⟨Or.inr (Or.inr (Or.inr (Or.inr (by trivial)))), fun h => absurd h (by simp)⟩
        · rw [if_neg hh]
          refine ⟨Or.inl (by trivial), fun _ => ?_⟩
          obtain ⟨u', hmem, he, hrc⟩ := ensureUserRefCode_found env w.rng (jsTrim email)
            w.store.users u0 hfind
          refine ⟨u', hmem, ?_, hrc, he.symm⟩
          rw [he]
          exact eq_of_beq (jsFind_eq_some hfind).1

/-- Witness for `login_flag_and_backfill` at a concrete successful
login. -/
theorem login_flag_and_backfill_witness :
    ∃ u ∈ (login envH ("a@b.com".data) ("password1".data) wLoginA).2.store.users,
      jsToLower u.email = jsToLower (jsTrim ("a@b.com".data)) ∧ u.refCode ≠ [] ∧
      (login envH ("a@b.com".data) ("password1".data) wLoginA).2.store.session = u.email :=
  (login_flag_and_backfill envH ("a@b.com".data) ("password1".data) wLoginA).2 (by decide)

/-- The `refCode` backfill of `getCurrentUser` touches only the users
table and the random stream. -/
theorem getCurrentUser_preserves (env : Env) (w : World) :
    ((getCurrentUser env w).2.store.refLog = w.store.refLog ∧
     (getCurrentUser env w).2.store.incomingRef = w.store.incomingRef) := by
  rw [getCurrentUser]
  by_cases hs : w.store.session = []
  · rw [if_pos hs]
    exact ⟨rfl, rfl⟩
  · rw [if_neg hs]
    exact ⟨rfl, rfl⟩

/-- Claim C6.  When a truthy `ref` parameter is observed and the current
logged-in viewer's own `refCode` equals the incoming code, no click is
recorded (the whole referral ledger is untouched), but the code is still
written to the incoming-referral staging slot (trimmed, as
`setIncomingRef` stores it). -/
theorem initRefFromUrl_self_referral (env : Env) (w : World) (code : JStr) (m : Viewer)
    (w2 : World) (r0 : Option JStr × List User × Nat)
    (hp : env.refParam = some code) (hc : code ≠ [])
    (hme : getCurrentUser env ⟨setIncomingRef code w.store, w.rng⟩ = (some m, w2))
    (hens : ensureUserRefCode env w2.rng m.email w2.store.users = r0)
    (hcode : r0.1 = some code) :
    (initRefFromUrl env w).store.refLog = w.store.refLog ∧
    (initRefFromUrl env w).store.incomingRef = jsTrim code := by
  have hw2 : (getCurrentUser env ⟨setIncomingRef code w.store, w.rng⟩).2 = w2 := by
    rw [hme]
  have hpre := getCurrentUser_preserves env ⟨setIncomingRef code w.store, w.rng⟩
  rw [hw2] at hpre
  simp only [initRefFromUrl, hp]
  rw [if_neg hc]
  simp only [hme, hens, hcode]
  rw [if_pos ⟨hc, by trivial⟩]
  constructor
  · exact hpre.1
  · exact hpre.2

/-- Witness for `initRefFromUrl_self_referral`: a logged-in viewer whose
own code `CODEAAAA` arrives as the `ref` parameter. -/
theorem initRefFromUrl_self_referral_witness :
    (initRefFromUrl envSelfRef wSelfRef).store.refLog = wSelfRef.store.refLog ∧
    (initRefFromUrl envSelfRef wSelfRef).store.incomingRef = jsTrim ("CODEAAAA".data) :=
  initRefFromUrl_self_referral envSelfRef wSelfRef ("CODEAAAA".data)
    ⟨"a@b.com".data, "CODEAAAA".data⟩
    ⟨setIncomingRef ("CODEAAAA".data) wSelfRef.store, 0⟩
    (some ("CODEAAAA".data), wSelfRef.store.users, 0)
    rfl (by decide) (by decide) (by decide) (by decide)

/-- Ledger entry after `n + 1` iterated clicks on a fresh code: the
clicks recorded so far, newest first, truncated to 500. -/
theorem applyClicks_entry (envs : Nat → Env) (code : JStr) (s : Store)
    (hc : jsTrim code ≠ []) (h0 : objGet s.refLog (jsTrim code) = none) :
    ∀ n, objGet ((applyClicks envs code s (n + 1)).refLog) (jsTrim code)
      = some ⟨(((List.range (n + 1)).map fun i =>
            Click.mk (envs i).now (envs i).path).reverse).take 500, []⟩ := by
  intro n
  induction n with
  | zero =>
    simp only [applyClicks, recordRefClick]
    rw [if_neg hc, h0]
    simp only [Option.getD]
    rw [objGet_objSet_self]
    rfl
  | succ k ih =>
    simp only [applyClicks, recordRefClick] at ih ⊢
    rw [if_neg hc, ih]
    simp only [Option.getD]
    rw [objGet_objSet_self]
    congr 2
    rw [take_cons_take]
    congr 1
    have hr : List.range (k + 1 + 1) = List.range (k + 1) ++ [k + 1] :=
      List.range_succ (k + 1)
    rw [hr, List.map_append, List.reverse_append]
    rfl

/-- Claim C5.  Recording 501 clicks for one (trim-nonempty) code starting
from a fresh ledger entry leaves exactly the clicks 500, 499, ..., 1 —
newest first, 500 entries — and the first-recorded click (index 0) is
absent, provided the timestamps distinguish the clicks; and each
`recordRefClick` inserts the new click at the head of the entry and
truncates to the most recent 500. -/
theorem recordRefClick_cap500 (envs : Nat → Env) (code : JStr) (s : Store)
    (hc : jsTrim code ≠ [])
    (h0 : objGet s.refLog (jsTrim code) = none)
    (hinj : ∀ i j, i < 501 → j < 501 → (envs i).now = (envs j).now → i = j) :
    objGet ((applyClicks envs code s 501).refLog) (jsTrim code)
      = some ⟨((List.range' 1 500).map fun i =>
          Click.mk (envs i).now (envs i).path).reverse, []⟩ ∧
    (((List.range' 1 500).map fun i =>
        Click.mk (envs i).now (envs i).path).reverse).length = 500 ∧
    Click.mk (envs 0).now (envs 0).path ∉
      ((List.range' 1 500).map fun i => Click.mk (envs i).now (envs i).path).reverse ∧
    (∀ (env' : Env) (s' : Store),
      (recordRefClick env' code s').refLog
        = objSet s'.refLog (jsTrim code)
            (RefEntry.mk
              ((Click.mk env'.now env'.path ::
                ((objGet s'.refLog (jsTrim code)).getD (RefEntry.mk [] [])).clicks).take 500)
              (((objGet s'.refLog (jsTrim code)).getD (RefEntry.mk [] [])).regs)) ∧
      (recordRefClick env' code s').users = s'.users ∧
      (recordRefClick env' code s').session = s'.session ∧
      (recordRefClick env' code s').profiles = s'.profiles ∧
      (recordRefClick env' code s').history = s'.history ∧
      (recordRefClick env' code s').incomingRef = s'.incomingRef) := by
  have hlen : (((List.range' 1 500).map fun i =>
      Click.mk (envs i).now (envs i).path).reverse).length = 500 := by
    simp [List.length_range']
  have hform : (((List.range 501).map fun i =>
        Click.mk (envs i).now (envs i).path).reverse).take 500
      = ((List.range' 1 500).map fun i => Click.mk (envs i).now (envs i).path).reverse := by
    have h1 : List.range 501 = List.range' 0 501 := List.range_eq_range' 501
    have h2 : List.range' 0 501 = 0 :: List.range' 1 500 := List.range'_succ 0 500 1
    rw [h1, h2, List.map_cons, List.reverse_cons]
    exact List.take_left' hlen
  refine ⟨?_, hlen, ?_, ?_⟩
  · have := applyClicks_entry envs code s hc h0 500
    rw [this, hform]
  · intro hmem
    rw [List.mem_reverse] at hmem
    obtain ⟨j, hj, hEq⟩ := List.mem_map.mp hmem
    have hj' : 1 ≤ j ∧ j < 501 := by
      rw [List.mem_range'] at hj
      obtain ⟨i, hi, rfl⟩ := hj
      omega
    have hts : (envs j).now = (envs 0).now := congrArg Click.ts hEq
    have := hinj j 0 (by omega) (by omega) hts
    omega
  · intro env' s'
    simp only [recordRefClick]
    rw [if_neg hc]
    exact ⟨rfl, rfl, rfl, rfl, rfl, rfl⟩

/-- Witness for `recordRefClick_cap500`: 501 clicks on the code
`"CODE"` with timestamps 0, 1, ..., 500. -/
theorem recordRefClick_cap500_witness :
    objGet ((applyClicks envClicks ("CODE".data) emptyStore 501).refLog)
        (jsTrim ("CODE".data))
      = some ⟨((List.range' 1 500).map fun i =>
          Click.mk (envClicks i).now (envClicks i).path).reverse, []⟩ ∧
    (((List.range' 1 500).map fun i =>
        Click.mk (envClicks i).now (envClicks i).path).reverse).length = 500 ∧
    Click.mk (envClicks 0).now (envClicks 0).path ∉
      ((List.range' 1 500).map fun i => Click.mk (envClicks i).now (envClicks i).path).reverse ∧
    (∀ (env' : Env) (s' : Store),
      (recordRefClick env' ("CODE".data) s').refLog
        = objSet s'.refLog (jsTrim ("CODE".data))
            (RefEntry.mk
              ((Click.mk env'.now env'.path ::
                ((objGet s'.refLog (jsTrim ("CODE".data))).getD (RefEntry.mk [] [])).clicks).take 500)
              (((objGet s'.refLog (jsTrim ("CODE".data))).getD (RefEntry.mk [] [])).regs)) ∧
      (recordRefClick env' ("CODE".data) s').users = s'.users ∧
      (recordRefClick env' ("CODE".data) s').session = s'.session ∧
      (recordRefClick env' ("CODE".data) s').profiles = s'.profiles ∧
      (recordRefClick env' ("CODE".data) s').history = s'.history ∧
      (recordRefClick env' ("CODE".data) s').incomingRef = s'.incomingRef) :=
  recordRefClick_cap500 envClicks ("CODE".data) emptyStore (by decide) rfl
    (fun i j _ _ h => h)

end CryptoEx
